import Mathlib

/-!
Shallow embedding of the BluffBot engine (`engine.py`).

Conventions:
- Card strengths and counts are `ℕ`; probabilities are `ℚ`.
- Python exceptions are modelled with `Except PyErr`.
- The ambient NumPy random source is modelled by explicit oracle values:
  the uniform noise in `decide_call`, and the opponent's bluff draw and
  claim-menu index in `bot_act`.
- Python dicts keyed by context are association lists with replace-or-append
  assignment; the pandas history DataFrame is a list of records appended in
  chronological order.
- The UI message strings (`last_message`) are embedded without the source
  file's emoji glyphs (mojibake in the repository); no property depends on
  the message text.
-/

namespace BluffBot

/-- Python `ValueError` and friends. -/
inductive PyErr where
  | valueError (msg : String)
deriving Repr, DecidableEq

/-- Python `min` over a list: raises `ValueError` on the empty list. -/
def pyMin : List ℕ → Except PyErr ℕ
  | [] => .error (.valueError "min() arg is an empty sequence")
  | x :: xs => .ok (xs.foldl Min.min x)

/-- Python `max` over a list: raises `ValueError` on the empty list. -/
def pyMax : List ℕ → Except PyErr ℕ
  | [] => .error (.valueError "max() arg is an empty sequence")
  | x :: xs => .ok (xs.foldl Max.max x)

/-- Python `list.remove`: deletes the first occurrence, raises if absent. -/
def pyRemove (l : List ℕ) (v : ℕ) : Except PyErr (List ℕ) :=
  if v ∈ l then .ok (l.erase v) else .error (.valueError "list.remove(x): x not in list")

/-- Python `int()` applied to a rational: truncation toward zero. -/
def pyInt (q : ℚ) : ℤ :=
  if q < 0 then -⌊-q⌋ else ⌊q⌋

/-- `HAND_SIZE = 5` (engine.py line 8). -/
def HAND_SIZE : ℕ := 5

/-- `MAX_ROUNDS = 10` (engine.py line 9). -/
def MAX_ROUNDS : ℕ := 10

/-- `strength_bucket` (engine.py lines 15-20). -/
def strength_bucket (card_strength : ℕ) : String :=
  if card_strength ≤ 3 then "weak"
  else if card_strength ≤ 7 then "medium"
  else "strong"

/-- `claim_to_strength` (engine.py lines 22-24); a missing key is a `KeyError`,
modelled as `none`. -/
def claim_to_strength (claim : String) : Option ℕ :=
  if claim = "low" then some 3
  else if claim = "medium" then some 6
  else if claim = "high" then some 9
  else none

/-- `PlayerState` (engine.py lines 26-29). -/
structure PlayerState where
  hand : List ℕ
  score : ℕ
deriving Repr, DecidableEq

/-- One row of the history DataFrame (engine.py lines 36-41, 89-99). -/
structure TurnRec where
  round : ℕ
  actor : String
  actual_strength : ℕ
  claim : String
  did_bluff : Bool
  bot_called : Bool
  result : String
deriving Repr, DecidableEq

/-- `GameState` (engine.py lines 31-43). -/
structure GameState where
  round_num : ℕ
  player : PlayerState
  bot : PlayerState
  history : List TurnRec
  last_message : String
  game_over : Bool
deriving Repr, DecidableEq

/-- A context key: (strength bucket, claim). -/
abbrev CtxKey := String × String

/-- Lookup in the association-list model of the Python dict. -/
def dictFind (stats : List (CtxKey × (ℕ × ℕ))) (k : CtxKey) : Option (ℕ × ℕ) :=
  (stats.find? (fun p => p.1 == k)).map Prod.snd

/-- Assignment in the association-list model of the Python dict:
replace the entry if the key is present, append it otherwise. -/
def dictSet (stats : List (CtxKey × (ℕ × ℕ))) (k : CtxKey) (v : ℕ × ℕ) :
    List (CtxKey × (ℕ × ℕ)) :=
  if stats.any (fun p => p.1 == k) then
    stats.map (fun p => if p.1 == k then (k, v) else p)
  else stats ++ [(k, v)]

/-- `BluffBotAI` (engine.py lines 45-53): `context_stats` maps a context key
to `(bluff_count, total_count)`. -/
structure BluffBotAI where
  context_stats : List (CtxKey × (ℕ × ℕ))
deriving Repr, DecidableEq

/-- `BluffBotAI.update_stats` (engine.py lines 55-58). -/
def update_stats (ai : BluffBotAI) (actual_strength : ℕ) (claim : String)
    (did_bluff : Bool) : BluffBotAI :=
  let key : CtxKey := (strength_bucket actual_strength, claim)
  let bt := (dictFind ai.context_stats key).getD (0, 0)
  ⟨dictSet ai.context_stats key (bt.1 + (if did_bluff then 1 else 0), bt.2 + 1)⟩

/-- `BluffBotAI.bluff_probability` (engine.py lines 60-67). -/
def bluff_probability (ai : BluffBotAI) (actual_strength : ℕ) (claim : String) : ℚ :=
  let key : CtxKey := (strength_bucket actual_strength, claim)
  match dictFind ai.context_stats key with
  | none => 35/100
  | some (b, t) => ((b : ℚ) + 1) / ((t : ℚ) + 3)

/-- `BluffBotAI.decide_call` (engine.py lines 69-79); `noise` is the draw of
`np.random.uniform(-0.05, 0.05)`. -/
def decide_call (ai : BluffBotAI) (actual_strength : ℕ) (claim : String)
    (noise : ℚ) : Bool × ℤ :=
  let p_bluff := bluff_probability ai actual_strength claim
  let suspicion := pyInt (p_bluff * 100)
  let threshold : ℚ := 55/100
  (decide (p_bluff + noise > threshold), suspicion)

/-- `init_game` (engine.py lines 81-87); `h1`, `h2` are the two `draw_hand()`
results (each of length `HAND_SIZE` with entries in 1..10). -/
def init_game (h1 h2 : List ℕ) : GameState :=
  { round_num := 1
    player := { hand := h1, score := 0 }
    bot := { hand := h2, score := 0 }
    history := []
    last_message := "New game started. Your move!"
    game_over := false }

/-- `log_event` (engine.py lines 89-99): append one row to the history. -/
def log_event (g : GameState) (actor : String) (actual_strength : ℕ)
    (claim : String) (did_bluff : Bool) (bot_called : Bool) (result : String) :
    GameState :=
  { g with history := g.history ++
      [{ round := g.round_num, actor := actor, actual_strength := actual_strength,
         claim := claim, did_bluff := did_bluff, bot_called := bot_called,
         result := result }] }

/-- The random values consumed by one `bot_act` call: the `np.random.rand()`
bluff draw and the index drawn by `np.random.choice` over the claim menu. -/
structure BotOracle where
  bluffDraw : ℚ
  claimIdx : ℕ
deriving Repr, DecidableEq

/-- The claim declared by the opponent: `np.random.choice(["medium","high"])`
when bluffing, `np.random.choice(["low","medium","high"])` when honest
(engine.py lines 153 and 156), with the uniform draw modelled as an index
into the menu. -/
def bot_claim (bluff : Bool) (idx : ℕ) : String :=
  if bluff then ["medium", "high"].getD (idx % 2) "medium"
  else ["low", "medium", "high"].getD (idx % 3) "low"

/-- `bot_act` (engine.py lines 147-169).  The `ai` argument is taken (as in the
source signature) but never used. -/
def bot_act (g : GameState) (ai : BluffBotAI) (o : BotOracle) :
    Except PyErr GameState :=
  let bluff : Bool := decide (o.bluffDraw < 3/10)
  match (if bluff then pyMin g.bot.hand else pyMax g.bot.hand) with
  | .error e => .error e
  | .ok actual_strength =>
    let claim : String := bot_claim bluff o.claimIdx
    match pyRemove g.bot.hand actual_strength with
    | .error e => .error e
    | .ok newHand =>
      let g1 := { g with bot := { hand := newHand,
                                  score := g.bot.score + (if bluff then 1 else 0) } }
      let result := if bluff then "Bot bluff succeeded (+1 Bot)" else "Bot honest play"
      .ok (log_event g1 "bot" actual_strength claim bluff false result)

/-- The scoring/message block of `player_turn` (engine.py lines 113-130):
returns the state after the 2×2 resolution together with the result tag. -/
def resolve (g0 : GameState) (bluff bot_called : Bool) (suspicion : ℤ) :
    GameState × String :=
  if bot_called then
    if bluff then
      ({ g0 with bot := { g0.bot with score := g0.bot.score + 1 },
                 last_message := "Bot called bluff! Caught you. (Suspicion " ++
                   toString suspicion ++ "%)" },
       "Bot caught your bluff (+1 Bot)")
    else
      ({ g0 with player := { g0.player with score := g0.player.score + 1 },
                 last_message := "Bot called bluff! You were honest. (Suspicion " ++
                   toString suspicion ++ "%)" },
       "Bot wrongly called bluff (+1 You)")
  else
    if bluff then
      ({ g0 with player := { g0.player with score := g0.player.score + 1 },
                 last_message := "Bot accepted. Bluff worked! (Suspicion " ++
                   toString suspicion ++ "%)" },
       "Your bluff succeeded (+1 You)")
    else
      ({ g0 with last_message := "Bot accepted. Honest play. (Suspicion " ++
                   toString suspicion ++ "%)" },
       "Honest play (no call)")

/-- `player_turn` (engine.py lines 101-145); `noise` and `bo` are the random
draws consumed by `decide_call` and by the nested `bot_act` call. -/
def player_turn (g : GameState) (ai : BluffBotAI) (claim : String) (bluff : Bool)
    (noise : ℚ) (bo : BotOracle) : Except PyErr (GameState × BluffBotAI) :=
  match (if bluff then pyMin g.player.hand else pyMax g.player.hand) with
  | .error e => .error e
  | .ok actual_strength =>
    match pyRemove g.player.hand actual_strength with
    | .error e => .error e
    | .ok newHand =>
      let dc := decide_call ai actual_strength claim noise
      let bot_called := dc.1
      let suspicion := dc.2
      let g0 := { g with player := { hand := newHand, score := g.player.score } }
      let rs := resolve g0 bluff bot_called suspicion
      let g1 := rs.1
      let result := rs.2
      let ai2 := update_stats ai actual_strength claim bluff
      let g2 := log_event g1 "player" actual_strength claim bluff bot_called result
      match bot_act g2 ai2 bo with
      | .error e => .error e
      | .ok g3 =>
        let g4 := { g3 with round_num := g3.round_num + 1 }
        let g5 :=
          if MAX_ROUNDS < g4.round_num ∨ (g4.player.hand = [] ∧ g4.bot.hand = []) then
            { g4 with game_over := true,
                      last_message := g4.last_message ++ " | Game Over!" }
          else g4
        .ok (g5, ai2)

/-- The external inputs and random draws of one full round
(one `player_turn` invocation). -/
structure TurnInput where
  claim : String
  bluff : Bool
  noise : ℚ
  bot : BotOracle
deriving Repr, DecidableEq

/-- Iterated `player_turn` over a list of per-round inputs, stopping at the
first raised error. -/
def run (g : GameState) (ai : BluffBotAI) : List TurnInput →
    Except PyErr (GameState × BluffBotAI)
  | [] => .ok (g, ai)
  | i :: is =>
    match player_turn g ai i.claim i.bluff i.noise i.bot with
    | .error e => .error e
    | .ok (g', ai') => run g' ai' is

/-- The history record appended for the player in one turn. -/
def playerRec (g : GameState) (ai : BluffBotAI) (c : String) (b : Bool) (n : ℚ)
    (v : ℕ) : TurnRec :=
  { round := g.round_num, actor := "player", actual_strength := v, claim := c,
    did_bluff := b, bot_called := (decide_call ai v c n).1,
    result :=
      if (decide_call ai v c n).1 then
        (if b then "Bot caught your bluff (+1 Bot)" else "Bot wrongly called bluff (+1 You)")
      else
        (if b then "Your bluff succeeded (+1 You)" else "Honest play (no call)") }

/-- The history record appended for the opponent in one turn. -/
def botRec (g : GameState) (bo : BotOracle) (w : ℕ) : TurnRec :=
  { round := g.round_num, actor := "bot", actual_strength := w,
    claim := bot_claim (decide (bo.bluffDraw < 3/10)) bo.claimIdx,
    did_bluff := decide (bo.bluffDraw < 3/10), bot_called := false,
    result := if decide (bo.bluffDraw < 3/10) then "Bot bluff succeeded (+1 Bot)"
              else "Bot honest play" }

/-- The expected round column of the history after the rounds `1..n`:
each round contributes its number twice (player record, then bot record). -/
def expectedRounds : ℕ → List ℕ
  | 0 => []
  | n+1 => expectedRounds n ++ [n+1, n+1]

/-- A state in which the game is already over but both hands are non-empty:
used to exercise `player_turn` after `terminal` has been reached. -/
def gTerminalEx : GameState :=
  { round_num := 3, player := { hand := [4], score := 0 },
    bot := { hand := [6], score := 0 }, history := [],
    last_message := "", game_over := true }

/-- A state in which the player's hand is empty. -/
def gEmptyHandEx : GameState :=
  { round_num := 2, player := { hand := [], score := 1 },
    bot := { hand := [5], score := 0 }, history := [],
    last_message := "", game_over := false }

/-- A mid-game state with duplicated weakest cards. -/
def gDupEx : GameState :=
  { round_num := 1, player := { hand := [2, 2, 7], score := 0 },
    bot := { hand := [6, 1], score := 0 }, history := [],
    last_message := "", game_over := false }

/-- A mid-game state used to exercise `bot_act` on its own. -/
def gBotEx : GameState :=
  { round_num := 4, player := { hand := [9], score := 2 },
    bot := { hand := [3, 8], score := 1 }, history := [],
    last_message := "", game_over := false }

/-! ### Basic facts about the Python `min` / `max` / `remove` models -/

lemma foldl_min_le_init (xs : List ℕ) : ∀ x : ℕ, xs.foldl Min.min x ≤ x := by
  induction xs with
  | nil => intro x; simp
  | cons a as ih =>
    intro x
    simpa using le_trans (ih (Min.min x a)) (min_le_left x a)

lemma foldl_min_le_mem (xs : List ℕ) : ∀ x y : ℕ, y ∈ xs → xs.foldl Min.min x ≤ y := by
  induction xs with
  | nil => intro x y hy; simp at hy
  | cons a as ih =>
    intro x y hy
    rcases List.mem_cons.mp hy with rfl | hy
    · simpa using le_trans (foldl_min_le_init as (Min.min x y)) (min_le_right x y)
    · simpa using ih (Min.min x a) y hy

lemma foldl_min_mem (xs : List ℕ) :
    ∀ x : ℕ, xs.foldl Min.min x = x ∨ xs.foldl Min.min x ∈ xs := by
  induction xs with
  | nil => intro x; simp
  | cons a as ih =>
    intro x
    rcases ih (Min.min x a) with h | h
    · rcases min_choice x a with hm | hm
      · left; simpa [hm] using h
      · right; simp only [List.foldl_cons]
        exact List.mem_cons.mpr (Or.inl (h.trans hm))
    · right; simp only [List.foldl_cons]
      exact List.mem_cons.mpr (Or.inr h)

lemma init_le_foldl_max (xs : List ℕ) : ∀ x : ℕ, x ≤ xs.foldl Max.max x := by
  induction xs with
  | nil => intro x; simp
  | cons a as ih =>
    intro x
    simpa using le_trans (le_max_left x a) (ih (Max.max x a))

lemma mem_le_foldl_max (xs : List ℕ) : ∀ x y : ℕ, y ∈ xs → y ≤ xs.foldl Max.max x := by
  induction xs with
  | nil => intro x y hy; simp at hy
  | cons a as ih =>
    intro x y hy
    rcases List.mem_cons.mp hy with rfl | hy
    · simpa using le_trans (le_max_right x y) (init_le_foldl_max as (Max.max x y))
    · simpa using ih (Max.max x a) y hy

lemma foldl_max_mem (xs : List ℕ) :
    ∀ x : ℕ, xs.foldl Max.max x = x ∨ xs.foldl Max.max x ∈ xs := by
  induction xs with
  | nil => intro x; simp
  | cons a as ih =>
    intro x
    rcases ih (Max.max x a) with h | h
    · rcases max_choice x a with hm | hm
      · left; simpa [hm] using h
      · right; simp only [List.foldl_cons]
        exact List.mem_cons.mpr (Or.inl (h.trans hm))
    · right; simp only [List.foldl_cons]
      exact List.mem_cons.mpr (Or.inr h)

/-- A successful `pyMin` returns a member of the list that is a lower bound. -/
lemma pyMin_ok {l : List ℕ} {v : ℕ} (h : pyMin l = .ok v) :
    v ∈ l ∧ ∀ y ∈ l, v ≤ y := by
  cases l with
  | nil => simp [pyMin] at h
  | cons x xs =>
    simp only [pyMin, Except.ok.injEq] at h
    subst h
    refine ⟨?_, ?_⟩
    · rcases foldl_min_mem xs x with h | h
      · rw [h]; exact List.mem_cons_self x xs
      · exact List.mem_cons.mpr (Or.inr h)
    · intro y hy
      rcases List.mem_cons.mp hy with rfl | hy
      · exact foldl_min_le_init xs y
      · exact foldl_min_le_mem xs x y hy

/-- A successful `pyMax` returns a member of the list that is an upper bound. -/
lemma pyMax_ok {l : List ℕ} {v : ℕ} (h : pyMax l = .ok v) :
    v ∈ l ∧ ∀ y ∈ l, y ≤ v := by
  cases l with
  | nil => simp [pyMax] at h
  | cons x xs =>
    simp only [pyMax, Except.ok.injEq] at h
    subst h
    refine ⟨?_, ?_⟩
    · rcases foldl_max_mem xs x with h | h
      · rw [h]; exact List.mem_cons_self x xs
      · exact List.mem_cons.mpr (Or.inr h)
    · intro y hy
      rcases List.mem_cons.mp hy with rfl | hy
      · exact init_le_foldl_max xs y
      · exact mem_le_foldl_max xs x y hy

lemma pyMin_ne_nil {l : List ℕ} (h : l ≠ []) : ∃ v, pyMin l = .ok v := by
  cases l with
  | nil => exact absurd rfl h
  | cons x xs => exact ⟨xs.foldl Min.min x, rfl⟩

lemma pyMax_ne_nil {l : List ℕ} (h : l ≠ []) : ∃ v, pyMax l = .ok v := by
  cases l with
  | nil => exact absurd rfl h
  | cons x xs => exact ⟨xs.foldl Max.max x, rfl⟩

lemma pyMin_nil : pyMin [] = .error (.valueError "min() arg is an empty sequence") := rfl

lemma pyMax_nil : pyMax [] = .error (.valueError "max() arg is an empty sequence") := rfl

lemma pyRemove_ok {l nl : List ℕ} {v : ℕ} (h : pyRemove l v = .ok nl) :
    v ∈ l ∧ nl = l.erase v := by
  by_cases hv : v ∈ l
  · simp only [pyRemove, if_pos hv, Except.ok.injEq] at h
    exact ⟨hv, h.symm⟩
  · simp [pyRemove, if_neg hv] at h

lemma pyRemove_mem {l : List ℕ} {v : ℕ} (h : v ∈ l) : pyRemove l v = .ok (l.erase v) := by
  simp [pyRemove, if_pos h]

/-! ### Characterization of a successful turn -/

/-- The `resolve` block never changes the round counter. -/
lemma resolve_round (g0 : GameState) (b c : Bool) (s : ℤ) :
    (resolve g0 b c s).1.round_num = g0.round_num := by
  cases c <;> cases b <;> simp [resolve]

/-- The `resolve` block never changes the player's hand. -/
lemma resolve_phand (g0 : GameState) (b c : Bool) (s : ℤ) :
    (resolve g0 b c s).1.player.hand = g0.player.hand := by
  cases c <;> cases b <;> simp [resolve]

/-- The `resolve` block never changes the opponent's hand. -/
lemma resolve_bhand (g0 : GameState) (b c : Bool) (s : ℤ) :
    (resolve g0 b c s).1.bot.hand = g0.bot.hand := by
  cases c <;> cases b <;> simp [resolve]

/-- The `resolve` block never changes the history. -/
lemma resolve_hist (g0 : GameState) (b c : Bool) (s : ℤ) :
    (resolve g0 b c s).1.history = g0.history := by
  cases c <;> cases b <;> simp [resolve]

/-- The `resolve` block never changes the terminal flag. -/
lemma resolve_go (g0 : GameState) (b c : Bool) (s : ℤ) :
    (resolve g0 b c s).1.game_over = g0.game_over := by
  cases c <;> cases b <;> simp [resolve]

/-- Player score delta of the 2×2 table. -/
lemma resolve_pscore (g0 : GameState) (b c : Bool) (s : ℤ) :
    (resolve g0 b c s).1.player.score =
      g0.player.score + (if c then (if b then 0 else 1) else (if b then 1 else 0)) := by
  cases c <;> cases b <;> simp [resolve]

/-- Opponent score delta of the 2×2 table. -/
lemma resolve_bscore (g0 : GameState) (b c : Bool) (s : ℤ) :
    (resolve g0 b c s).1.bot.score =
      g0.bot.score + (if c then (if b then 1 else 0) else 0) := by
  cases c <;> cases b <;> simp [resolve]

/-- Result tag of the 2×2 table. -/
lemma resolve_result (g0 : GameState) (b c : Bool) (s : ℤ) :
    (resolve g0 b c s).2 =
      (if c then
        (if b then "Bot caught your bluff (+1 Bot)" else "Bot wrongly called bluff (+1 You)")
       else
        (if b then "Your bluff succeeded (+1 You)" else "Honest play (no call)")) := by
  cases c <;> cases b <;> simp [resolve]

/-- The card selected by a turn: minimum when bluffing, maximum when honest. -/
lemma sel_ok_mem {l : List ℕ} {v : ℕ} {c : Bool}
    (h : (if c then pyMin l else pyMax l) = .ok v) : v ∈ l := by
  cases c with
  | false => simp only [Bool.false_eq_true, if_false] at h; exact (pyMax_ok h).1
  | true => simp only [if_true] at h; exact (pyMin_ok h).1

lemma sel_ne_nil {l : List ℕ} (c : Bool) (h : l ≠ []) :
    ∃ v, (if c then pyMin l else pyMax l) = .ok v := by
  cases c with
  | false => simpa using pyMax_ne_nil h
  | true => simpa using pyMin_ne_nil h

/-- Field-wise description of a successful `bot_act`. -/
lemma bot_act_ok {g : GameState} {ai : BluffBotAI} {o : BotOracle} {g' : GameState}
    (h : bot_act g ai o = .ok g') :
    ∃ w, (if decide (o.bluffDraw < 3/10) then pyMin g.bot.hand else pyMax g.bot.hand)
           = .ok w ∧
      w ∈ g.bot.hand ∧
      g'.round_num = g.round_num ∧
      g'.player = g.player ∧
      g'.bot.hand = g.bot.hand.erase w ∧
      g'.bot.score = g.bot.score + (if decide (o.bluffDraw < 3/10) then 1 else 0) ∧
      g'.history = g.history ++ [botRec g o w] ∧
      g'.game_over = g.game_over ∧
      g'.last_message = g.last_message := by
  simp only [bot_act] at h
  split at h
  · simp at h
  · next w hw =>
    split at h
    · simp at h
    · next nl hr =>
      simp only [Except.ok.injEq] at h
      obtain ⟨hmem, hnl⟩ := pyRemove_ok hr
      subst hnl
      refine ⟨w, hw, hmem, ?_⟩
      subst h
      simp [log_event, botRec]

/-- A non-empty opponent hand makes `bot_act` succeed. -/
lemma bot_act_ne_nil (g : GameState) (ai : BluffBotAI) (o : BotOracle)
    (hb : g.bot.hand ≠ []) : ∃ g', bot_act g ai o = .ok g' := by
  cases hba : bot_act g ai o with
  | ok g' => exact ⟨g', rfl⟩
  | error e =>
    exfalso
    simp only [bot_act] at hba
    split at hba
    · next e' hsel =>
      obtain ⟨v, hv⟩ := sel_ne_nil (decide (o.bluffDraw < 3/10)) hb
      rw [hv] at hsel
      exact absurd hsel (by simp)
    · next w hw =>
      split at hba
      · next e' hr =>
        rw [pyRemove_mem (sel_ok_mem hw)] at hr
        exact absurd hr (by simp)
      · simp at hba

/-- `bot_act` can only fail on an empty opponent hand. -/
lemma bot_act_error {g : GameState} {ai : BluffBotAI} {o : BotOracle} {e : PyErr}
    (h : bot_act g ai o = .error e) : g.bot.hand = [] := by
  by_contra hne
  obtain ⟨g', hg'⟩ := bot_act_ne_nil g ai o hne
  exact absurd (h.symm.trans hg') (by simp)

/-- An empty player hand makes `player_turn` raise the bare Python
`ValueError` coming from `min`/`max` on an empty sequence. -/
lemma player_turn_nil {g : GameState} {ai : BluffBotAI} {c : String} {b : Bool}
    {n : ℚ} {bo : BotOracle} (hp : g.player.hand = []) :
    player_turn g ai c b n bo =
      .error (.valueError (if b then "min() arg is an empty sequence"
                           else "max() arg is an empty sequence")) := by
  cases b <;> simp [player_turn, hp, pyMin, pyMax]

/-- Non-empty hands make `player_turn` succeed (no precondition is checked). -/
lemma player_turn_ne_nil (g : GameState) (ai : BluffBotAI) (c : String) (b : Bool)
    (n : ℚ) (bo : BotOracle) (hp : g.player.hand ≠ []) (hb : g.bot.hand ≠ []) :
    ∃ g' ai', player_turn g ai c b n bo = .ok (g', ai') := by
  cases hpt : player_turn g ai c b n bo with
  | ok p => obtain ⟨g1, ai1⟩ := p; exact ⟨g1, ai1, rfl⟩
  | error e =>
    exfalso
    simp only [player_turn] at hpt
    split at hpt
    · next e' hsel =>
      obtain ⟨v, hv⟩ := sel_ne_nil b hp
      rw [hv] at hsel
      exact absurd hsel (by simp)
    · next v hv =>
      split at hpt
      · next e' hr =>
        rw [pyRemove_mem (sel_ok_mem hv)] at hr
        exact absurd hr (by simp)
      · next nh hr =>
        split at hpt
        · next e' hba =>
          have h0 := bot_act_error hba
          simp only [log_event, resolve_bhand] at h0
          exact hb h0
        · simp at hpt

/-- Field-wise description of a successful `player_turn`: the selected cards,
the new scores per the 2×2 table plus the opponent's own turn, the two appended
records, the round increment and the terminal-flag update. -/
lemma player_turn_ok {g : GameState} {ai : BluffBotAI} {c : String} {b : Bool}
    {n : ℚ} {bo : BotOracle} {g' : GameState} {ai' : BluffBotAI}
    (h : player_turn g ai c b n bo = .ok (g', ai')) :
    ∃ v w,
      (if b then pyMin g.player.hand else pyMax g.player.hand) = .ok v ∧
      (if decide (bo.bluffDraw < 3/10) then pyMin g.bot.hand else pyMax g.bot.hand)
        = .ok w ∧
      v ∈ g.player.hand ∧ w ∈ g.bot.hand ∧
      ai' = update_stats ai v c b ∧
      g'.round_num = g.round_num + 1 ∧
      g'.player.hand = g.player.hand.erase v ∧
      g'.bot.hand = g.bot.hand.erase w ∧
      g'.player.score = g.player.score +
        (if (decide_call ai v c n).1 then (if b then 0 else 1)
         else (if b then 1 else 0)) ∧
      g'.bot.score = g.bot.score +
        (if (decide_call ai v c n).1 then (if b then 1 else 0) else 0) +
        (if decide (bo.bluffDraw < 3/10) then 1 else 0) ∧
      g'.history = g.history ++ [playerRec g ai c b n v, botRec g bo w] ∧
      g'.game_over = (if MAX_ROUNDS < g.round_num + 1 ∨
          (g.player.hand.erase v = [] ∧ g.bot.hand.erase w = []) then true
        else g.game_over) := by
  simp only [player_turn] at h
  split at h
  · simp at h
  · next v hv =>
    split at h
    · simp at h
    · next nh hr =>
      split at h
      · simp at h
      · next g3 hba =>
        obtain ⟨hmemv, hnh⟩ := pyRemove_ok hr
        subst hnh
        obtain ⟨w, hw, hmemw, h3round, h3player, h3bhand, h3bscore, h3hist,
          h3go, h3msg⟩ := bot_act_ok hba
        simp only [log_event, resolve_bhand] at hw hmemw h3bhand
        have h3round' : g3.round_num = g.round_num := by
          rw [h3round]; simp [log_event, resolve_round]
        have h3phand : g3.player.hand = g.player.hand.erase v := by
          rw [congrArg PlayerState.hand h3player]
          simp [log_event, resolve_phand]
        have h3pscore : g3.player.score = g.player.score +
            (if (decide_call ai v c n).1 then (if b then 0 else 1)
             else (if b then 1 else 0)) := by
          rw [congrArg PlayerState.score h3player]
          simp [log_event, resolve_pscore]
        have h3bscore' : g3.bot.score = g.bot.score +
            (if (decide_call ai v c n).1 then (if b then 1 else 0) else 0) +
            (if decide (bo.bluffDraw < 3/10) then 1 else 0) := by
          rw [h3bscore]; simp [log_event, resolve_bscore]
        have h3go' : g3.game_over = g.game_over := by
          rw [h3go]; simp [log_event, resolve_go]
        have h3hist' : g3.history =
            g.history ++ [playerRec g ai c b n v, botRec g bo w] := by
          rw [h3hist]
          simp [log_event, resolve_hist, resolve_result, resolve_round,
            playerRec, botRec]
        simp only [Except.ok.injEq, Prod.mk.injEq] at h
        obtain ⟨hg5, hai⟩ := h
        subst hg5
        subst hai
        refine ⟨v, w, hv, hw, hmemv, hmemw, rfl, ?_, ?_, ?_, ?_, ?_, ?_, ?_⟩
        · split <;> simp [h3round']
        · split <;> simp [h3phand]
        · split <;> simp [h3bhand]
        · split <;> simp [h3pscore]
        · split <;> simp [h3bscore']
        · split <;> simp [h3hist']
        · simp only [apply_ite GameState.game_over, h3round', h3phand, h3bhand,
            h3go']

/-! ### Trace-level invariants -/

lemma expectedRounds_length (n : ℕ) : (expectedRounds n).length = 2 * n := by
  induction n with
  | zero => rfl
  | succ n ih => simp [expectedRounds, ih]; omega

lemma mem_expectedRounds {x n : ℕ} (h : x ∈ expectedRounds n) : x ≤ n := by
  induction n with
  | zero => simp [expectedRounds] at h
  | succ n ih =>
    simp only [expectedRounds, List.mem_append] at h
    rcases h with h | h
    · exact (ih h).trans (Nat.le_succ n)
    · simp at h; omega

lemma expectedRounds_pairwise (n : ℕ) : (expectedRounds n).Pairwise (· ≤ ·) := by
  induction n with
  | zero => simp [expectedRounds]
  | succ n ih =>
    refine List.pairwise_append.mpr ⟨ih, by simp, ?_⟩
    intro a ha b hb
    have hb' : b = n + 1 := by simpa using (by simpa using hb : b = n + 1 ∨ b = n + 1).elim id id
    have := mem_expectedRounds ha
    omega

/-- One successful turn appends exactly the rounds `[r, r]` and the actors
`["player", "bot"]` to the history columns, for `r` the pre-turn round. -/
lemma player_turn_hist_cols {g : GameState} {ai : BluffBotAI} {c : String} {b : Bool}
    {n : ℚ} {bo : BotOracle} {g' : GameState} {ai' : BluffBotAI}
    (h : player_turn g ai c b n bo = .ok (g', ai')) :
    g'.round_num = g.round_num + 1 ∧
    g'.history.map TurnRec.round =
      g.history.map TurnRec.round ++ [g.round_num, g.round_num] ∧
    g'.history.map TurnRec.actor = g.history.map TurnRec.actor ++ ["player", "bot"] ∧
    g'.history.take g.history.length = g.history := by
  obtain ⟨v, w, _, _, _, _, _, hround, _, _, _, _, hhist, _⟩ := player_turn_ok h
  refine ⟨hround, ?_, ?_, ?_⟩
  · simp [hhist, playerRec, botRec]
  · simp [hhist, playerRec, botRec]
  · rw [hhist]
    exact List.take_left g.history _

/-- Run-level invariant: round counter and the two history columns. -/
lemma run_hist_inv : ∀ (inputs : List TurnInput) (g : GameState) (ai : BluffBotAI)
    (g' : GameState) (ai' : BluffBotAI) (N : ℕ),
    run g ai inputs = .ok (g', ai') →
    g.round_num = N + 1 →
    g.history.map TurnRec.round = expectedRounds N →
    g.history.map TurnRec.actor = (List.replicate N ["player", "bot"]).flatten →
    g'.round_num = (N + inputs.length) + 1 ∧
    g'.history.map TurnRec.round = expectedRounds (N + inputs.length) ∧
    g'.history.map TurnRec.actor =
      (List.replicate (N + inputs.length) ["player", "bot"]).flatten := by
  intro inputs
  induction inputs with
  | nil =>
    intro g ai g' ai' N h hr hh ha
    simp only [run, Except.ok.injEq, Prod.mk.injEq] at h
    obtain ⟨rfl, rfl⟩ := h
    simpa using ⟨hr, hh, ha⟩
  | cons i is ih =>
    intro g ai g' ai' N h hr hh ha
    simp only [run] at h
    split at h
    · simp at h
    · next g1 ai1 hpt =>
      obtain ⟨hround, hcolr, hcola, _⟩ := player_turn_hist_cols hpt
      have h1 := ih g1 ai1 g' ai' (N + 1) h (by omega)
        (by rw [hcolr, hh, hr]; rfl)
        (by rw [hcola, ha, List.replicate_succ']; simp)
      have harith : N + 1 + is.length = N + (is.length + 1) := by omega
      rw [harith] at h1
      simpa using h1

/-- Run-level invariant: the terminal flag always equals its defining
condition, provided it does at the start. -/
lemma run_game_over_inv : ∀ (inputs : List TurnInput) (g : GameState)
    (ai : BluffBotAI) (g' : GameState) (ai' : BluffBotAI),
    run g ai inputs = .ok (g', ai') →
    (g.game_over = true ↔
      (MAX_ROUNDS < g.round_num ∨ (g.player.hand = [] ∧ g.bot.hand = []))) →
    (g'.game_over = true ↔
      (MAX_ROUNDS < g'.round_num ∨ (g'.player.hand = [] ∧ g'.bot.hand = []))) := by
  intro inputs
  induction inputs with
  | nil =>
    intro g ai g' ai' h hg
    simp only [run, Except.ok.injEq, Prod.mk.injEq] at h
    obtain ⟨rfl, rfl⟩ := h
    exact hg
  | cons i is ih =>
    intro g ai g' ai' h hg
    simp only [run] at h
    split at h
    · simp at h
    · next g1 ai1 hpt =>
      refine ih g1 ai1 g' ai' h ?_
      obtain ⟨v, w, hv, hw, hmemv, hmemw, _, hround, hphand, hbhand, _, _, _,
        hgo⟩ := player_turn_ok hpt
      rw [hgo, hround, hphand, hbhand]
      constructor
      · intro hset
        by_cases hcond : MAX_ROUNDS < g.round_num + 1 ∨
            (g.player.hand.erase v = [] ∧ g.bot.hand.erase w = [])
        · exact hcond
        · rw [if_neg hcond] at hset
          rcases hg.mp hset with hlim | hempty
          · exact Or.inl (by omega)
          · exact absurd hempty.1 (List.ne_nil_of_mem hmemv)
      · intro hcond
        rw [if_pos hcond]

/-- One successful turn removes one card from each hand. -/
lemma player_turn_hand_lengths {g : GameState} {ai : BluffBotAI} {c : String}
    {b : Bool} {n : ℚ} {bo : BotOracle} {g' : GameState} {ai' : BluffBotAI}
    (h : player_turn g ai c b n bo = .ok (g', ai')) :
    g'.player.hand.length + 1 = g.player.hand.length ∧
    g'.bot.hand.length + 1 = g.bot.hand.length ∧
    g'.round_num = g.round_num + 1 := by
  obtain ⟨v, w, _, _, hmemv, hmemw, _, hround, hphand, hbhand, _, _, _, _⟩ :=
    player_turn_ok h
  refine ⟨?_, ?_, hround⟩
  · rw [hphand]; exact List.length_erase_add_one hmemv
  · rw [hbhand]; exact List.length_erase_add_one hmemw

/-- Run-level hand-depletion invariant: with equal non-depleted hands the run
consumes one card from each hand per input. -/
lemma run_hand_lengths : ∀ (inputs : List TurnInput) (g : GameState)
    (ai : BluffBotAI) (g' : GameState) (ai' : BluffBotAI),
    run g ai inputs = .ok (g', ai') →
    g.player.hand.length = g.bot.hand.length →
    inputs.length ≤ g.player.hand.length ∧
    g'.player.hand.length = g.player.hand.length - inputs.length ∧
    g'.bot.hand.length = g.bot.hand.length - inputs.length ∧
    g'.round_num = g.round_num + inputs.length := by
  intro inputs
  induction inputs with
  | nil =>
    intro g ai g' ai' h heq
    simp only [run, Except.ok.injEq, Prod.mk.injEq] at h
    obtain ⟨rfl, rfl⟩ := h
    simp
  | cons i is ih =>
    intro g ai g' ai' h heq
    simp only [run] at h
    split at h
    · simp at h
    · next g1 ai1 hpt =>
      obtain ⟨hp1, hb1, hr1⟩ := player_turn_hand_lengths hpt
      have h1 := ih g1 ai1 g' ai' h (by omega)
      simp only [List.length_cons]
      omega

/-! ### Claims about the Belief Model and the Decision Policy -/

/-- The smoothed estimate is always strictly positive. -/
lemma bluff_probability_pos (ai : BluffBotAI) (s : ℕ) (c : String) :
    0 < bluff_probability ai s c := by
  rcases h : dictFind ai.context_stats (strength_bucket s, c) with _ | ⟨b, t⟩ <;>
    simp only [bluff_probability, h] <;> positivity

/-- C1: the Belief Model's estimate returns the fixed prior 0.35 exactly when
the context key is unseen, and the Laplace-smoothed (bluff_count + 1) /
(total_count + 3) otherwise; for all counts 0 ≤ b ≤ t the value lies strictly
between 0 and 1. -/
theorem bluff_probability_prior_and_smoothing (ai : BluffBotAI) (s : ℕ) (c : String) :
    (dictFind ai.context_stats (strength_bucket s, c) = none →
      bluff_probability ai s c = 35/100 ∧
      0 < bluff_probability ai s c ∧ bluff_probability ai s c < 1) ∧
    (∀ b t : ℕ, dictFind ai.context_stats (strength_bucket s, c) = some (b, t) →
      bluff_probability ai s c = ((b : ℚ) + 1) / ((t : ℚ) + 3)) ∧
    (∀ b t : ℕ, b ≤ t →
      dictFind ai.context_stats (strength_bucket s, c) = some (b, t) →
      0 < bluff_probability ai s c ∧ bluff_probability ai s c < 1) := by
  refine ⟨?_, ?_, ?_⟩
  · intro h
    simp only [bluff_probability, h]
    norm_num
  · intro b t h
    simp only [bluff_probability, h]
  · intro b t hbt h
    simp only [bluff_probability, h]
    have ht : (0:ℚ) < (t:ℚ) + 3 := by positivity
    refine ⟨by positivity, ?_⟩
    rw [div_lt_one ht]
    have hc : (b:ℚ) ≤ (t:ℚ) := by exact_mod_cast hbt
    linarith

/-- Witness for C1 at the concrete statistic (1, 2) and an unseen context. -/
theorem bluff_probability_prior_and_smoothing_spot :
    bluff_probability ⟨[(("weak", "high"), (1, 2))]⟩ 2 "high" = 2/5 ∧
    0 < bluff_probability ⟨[(("weak", "high"), (1, 2))]⟩ 2 "high" ∧
    bluff_probability ⟨[(("weak", "high"), (1, 2))]⟩ 2 "high" < 1 ∧
    bluff_probability ⟨[(("weak", "high"), (1, 2))]⟩ 9 "high" = 35/100 := by
  have h := bluff_probability_prior_and_smoothing ⟨[(("weak", "high"), (1, 2))]⟩ 2 "high"
  have h9 := bluff_probability_prior_and_smoothing ⟨[(("weak", "high"), (1, 2))]⟩ 9 "high"
  obtain ⟨hpos, hlt⟩ := h.2.2 1 2 (by norm_num) (by decide)
  refine ⟨?_, hpos, hlt, (h9.1 (by decide)).1⟩
  have he := h.2.1 1 2 (by decide)
  rw [he]; norm_num

/-- C5 counterexample: the observed statistic (bluff_count, total_count) =
(6, 17) — reachable by 17 observations of one context, 6 of them bluffs —
has Laplace-smoothed estimate (6+1)/(17+3) = 0.35, exactly the unseen prior,
so an observed context CAN produce the prior value. -/
theorem observed_context_estimate_equals_prior :
    ((List.replicate 6 true ++ List.replicate 11 false).foldl
        (fun a d => update_stats a 2 "high" d) (⟨[]⟩ : BluffBotAI)) =
      ⟨[(("weak", "high"), (6, 17))]⟩ ∧
    dictFind (⟨[(("weak", "high"), (6, 17))]⟩ : BluffBotAI).context_stats
      ("weak", "high") = some (6, 17) ∧
    bluff_probability ⟨[(("weak", "high"), (6, 17))]⟩ 2 "high" = 35/100 := by
  refine ⟨by decide, by decide, ?_⟩
  with_unfolding_all rfl

/-- C5 (amended): for an observed context the estimate equals the prior 0.35
exactly when 20·bluff_count = 7·total_count + 1 (e.g. (6, 17)); it is not the
case that observed contexts never return 0.35. -/
theorem observed_context_estimate_prior_iff (ai : BluffBotAI) (s : ℕ) (c : String)
    (b t : ℕ) (h : dictFind ai.context_stats (strength_bucket s, c) = some (b, t)) :
    bluff_probability ai s c = 35/100 ↔ 20 * b = 7 * t + 1 := by
  simp only [bluff_probability, h]
  rw [show (35:ℚ)/100 = 7/20 by norm_num,
    div_eq_div_iff (by positivity : (0:ℚ) < (t:ℚ) + 3).ne'
      (by norm_num : ((20:ℚ)) ≠ 0)]
  constructor
  · intro heq
    have hq : (20:ℚ) * (b:ℚ) = 7 * (t:ℚ) + 1 := by linarith
    exact_mod_cast hq
  · intro heq
    have hq : (20:ℚ) * (b:ℚ) = 7 * (t:ℚ) + 1 := by exact_mod_cast heq
    linarith

/-- Witness for the amended C5 at the statistic (6, 17). -/
theorem observed_context_estimate_prior_iff_spot :
    bluff_probability ⟨[(("weak", "high"), (6, 17))]⟩ 2 "high" = 35/100 := by
  exact (observed_context_estimate_prior_iff ⟨[(("weak", "high"), (6, 17))]⟩ 2 "high"
    6 17 (by decide)).mpr (by norm_num)

/-- C4 counterexample: at the reachable statistic (2, 4) the estimate is 3/7,
and the confidence reported by `decide_call` is `int(3/7·100) = 42`, while
nearest-integer rounding gives `round(3/7·100) = 43`: the code truncates, it
does not round. -/
theorem suspicion_truncates_not_rounds :
    (decide_call ⟨[(("weak", "high"), (2, 4))]⟩ 2 "high" 0).2 ≠
      round (bluff_probability ⟨[(("weak", "high"), (2, 4))]⟩ 2 "high" * 100) ∧
    ((List.replicate 2 true ++ List.replicate 2 false).foldl
        (fun a d => update_stats a 2 "high" d) (⟨[]⟩ : BluffBotAI)) =
      ⟨[(("weak", "high"), (2, 4))]⟩ := by
  constructor
  · have h1 : (decide_call ⟨[(("weak", "high"), (2, 4))]⟩ 2 "high" 0).2 = 42 := by
      with_unfolding_all rfl
    have h2 : round (bluff_probability ⟨[(("weak", "high"), (2, 4))]⟩ 2 "high" * 100)
        = 43 := by
      with_unfolding_all rfl
    rw [h1, h2]; decide
  · decide

/-- C4 (amended): the confidence returned by `decide_call` is the truncation
(equivalently, since the estimate is non-negative, the floor) of the
probability scaled to 0..100, not its nearest-integer rounding. -/
theorem decide_call_confidence_floor (ai : BluffBotAI) (s : ℕ) (c : String) (n : ℚ) :
    (decide_call ai s c n).2 = ⌊bluff_probability ai s c * 100⌋ := by
  have hpos : (0:ℚ) ≤ bluff_probability ai s c * 100 := by
    have := bluff_probability_pos ai s c
    positivity
  simp only [decide_call, pyInt, if_neg (not_lt.mpr hpos)]

/-! ### Claims about error handling -/

/-- C3 counterexample: invoked on a state whose terminal flag is already set
(and likewise with an unrecognized claim category), `player_turn` raises
nothing: it returns successfully and mutates the state (two records are
appended, the round advances).  No "invalid turn" signal exists. -/
theorem player_turn_skips_precondition_checks :
    gTerminalEx.game_over = true ∧
    (player_turn gTerminalEx ⟨[]⟩ "high" false 0 ⟨1, 0⟩).isOk = true ∧
    (player_turn gTerminalEx ⟨[]⟩ "high" false 0 ⟨1, 0⟩).toOption.map
      (fun p => (p.1.history.length, p.1.round_num)) = some (2, 4) ∧
    (player_turn gTerminalEx ⟨[]⟩ "not-a-claim" true 0 ⟨1, 0⟩).isOk = true := by
  refine ⟨rfl, ?_, ?_, ?_⟩ <;> with_unfolding_all rfl

/-- C3 (amended): `player_turn` validates nothing.  On an empty player hand it
raises the built-in empty-sequence `ValueError` of `min`/`max` (before any
state is produced) rather than a descriptive invalid-turn signal; on a
terminal state or an unrecognized claim category it silently proceeds,
succeeding and mutating the state whenever both hands are non-empty. -/
theorem player_turn_error_behavior :
    (∀ (g : GameState) (ai : BluffBotAI) (c : String) (b : Bool) (n : ℚ)
        (bo : BotOracle), g.player.hand = [] →
      player_turn g ai c b n bo =
        .error (.valueError (if b then "min() arg is an empty sequence"
                             else "max() arg is an empty sequence"))) ∧
    (∀ (g : GameState) (ai : BluffBotAI) (c : String) (b : Bool) (n : ℚ)
        (bo : BotOracle), g.player.hand ≠ [] → g.bot.hand ≠ [] →
      ∃ g' ai', player_turn g ai c b n bo = .ok (g', ai')) ∧
    (∀ (g : GameState) (ai : BluffBotAI) (c : String) (b : Bool) (n : ℚ)
        (bo : BotOracle) (g' : GameState) (ai' : BluffBotAI),
      player_turn g ai c b n bo = .ok (g', ai') →
      g'.round_num = g.round_num + 1 ∧
      g'.history.length = g.history.length + 2) := by
  refine ⟨?_, ?_, ?_⟩
  · intro g ai c b n bo hp
    exact player_turn_nil hp
  · intro g ai c b n bo hp hb
    exact player_turn_ne_nil g ai c b n bo hp hb
  · intro g ai c b n bo g' ai' h
    obtain ⟨v, w, _, _, _, _, _, hround, _, _, _, _, hhist, _⟩ := player_turn_ok h
    exact ⟨hround, by simp [hhist]⟩

/-- Witness for the amended C3: the empty-hand error, the unchecked success on
a terminal state with an unrecognized claim, and the mutation of a successful
call, each at concrete inputs. -/
theorem player_turn_error_behavior_spot :
    player_turn gEmptyHandEx ⟨[]⟩ "low" true 0 ⟨0, 0⟩ =
      .error (.valueError "min() arg is an empty sequence") ∧
    (player_turn gTerminalEx ⟨[]⟩ "banana" true (1/100) ⟨0, 2⟩).isOk = true ∧
    (player_turn gTerminalEx ⟨[]⟩ "banana" true (1/100) ⟨0, 2⟩).toOption.map
      (fun p => p.1.round_num) = some 4 := by
  refine ⟨?_, ?_, ?_⟩
  · simpa using player_turn_error_behavior.1 gEmptyHandEx ⟨[]⟩ "low" true 0 ⟨0, 0⟩ rfl
  · obtain ⟨g', ai', h⟩ := player_turn_error_behavior.2.1 gTerminalEx ⟨[]⟩ "banana"
      true (1/100) ⟨0, 2⟩ (by decide) (by decide)
    rw [h]; rfl
  · obtain ⟨g', ai', h⟩ := player_turn_error_behavior.2.1 gTerminalEx ⟨[]⟩ "banana"
      true (1/100) ⟨0, 2⟩ (by decide) (by decide)
    have h2 := player_turn_error_behavior.2.2 gTerminalEx ⟨[]⟩ "banana" true (1/100)
      ⟨0, 2⟩ g' ai' h
    rw [h]
    have hr : g'.round_num = 4 := by rw [h2.1]; rfl
    simp only [Except.toOption, Option.map_some]
    exact congrArg some hr

/-! ### Claims about the Round Resolver -/

/-- C2: in every player turn the outcome follows the 2×2 table on
(bluff, called): bluff∧called gives the opponent +1; honest∧called gives the
player +1; bluff∧¬called gives the player +1; honest∧¬called changes no score
and logs the result tag "Honest play (no call)".  The only further score
change in the turn is the opponent's own +1-if-bluffing in its half. -/
theorem player_turn_outcome_table (g : GameState) (ai : BluffBotAI) (c : String)
    (b : Bool) (n : ℚ) (bo : BotOracle) (g' : GameState) (ai' : BluffBotAI) (v : ℕ)
    (hok : player_turn g ai c b n bo = .ok (g', ai'))
    (hv : (if b then pyMin g.player.hand else pyMax g.player.hand) = .ok v) :
    g'.player.score = g.player.score +
      (if (decide_call ai v c n).1 then (if b then 0 else 1)
       else (if b then 1 else 0)) ∧
    g'.bot.score = g.bot.score +
      (if (decide_call ai v c n).1 then (if b then 1 else 0) else 0) +
      (if bo.bluffDraw < 3/10 then 1 else 0) ∧
    (b = false → (decide_call ai v c n).1 = false →
      g'.history[g.history.length]? = some
        { round := g.round_num, actor := "player", actual_strength := v, claim := c,
          did_bluff := false, bot_called := false,
          result := "Honest play (no call)" }) := by
  obtain ⟨v0, w, hv0, hw, hmemv, hmemw, _, _, _, _, hps, hbs, hhist, _⟩ :=
    player_turn_ok hok
  have hvv : v0 = v := by
    rw [hv] at hv0
    exact ((Except.ok.injEq _ _).mp hv0).symm
  subst hvv
  refine ⟨hps, ?_, ?_⟩
  · rw [hbs]
    simp
  · intro hb hc
    rw [hhist]
    rw [List.getElem?_append_right (le_refl g.history.length)]
    simp [playerRec, hb, hc]

/-- Witness for C2 at a concrete honest, uncalled turn. -/
theorem player_turn_outcome_table_spot :
    (player_turn gBotEx ⟨[]⟩ "high" false 0 ⟨1, 0⟩).toOption.map
      (fun p => (p.1.player.score, p.1.bot.score,
        p.1.history[(0:ℕ)]?.map TurnRec.result)) =
      some (2, 1, some "Honest play (no call)") := by
  obtain ⟨g', ai', h⟩ := player_turn_ne_nil gBotEx ⟨[]⟩ "high" false 0 ⟨1, 0⟩
    (by decide) (by decide)
  have ht := player_turn_outcome_table gBotEx ⟨[]⟩ "high" false 0 ⟨1, 0⟩ g' ai' 9
    h (by rfl)
  have hcall : (decide_call (⟨[]⟩ : BluffBotAI) 9 "high" 0).1 = false := by
    with_unfolding_all rfl
  have hbd : ¬ ((1:ℚ) < 3/10) := by norm_num
  have hps : g'.player.score = 2 := by rw [ht.1, hcall]; rfl
  have hbs : g'.bot.score = 1 := by
    rw [ht.2.1, hcall]
    simp [hbd, gBotEx]
  have hrec := ht.2.2 rfl hcall
  rw [h]
  simp only [Except.toOption, Option.map_some]
  have h0 : gBotEx.history.length = 0 := rfl
  rw [h0] at hrec
  have htup : (g'.player.score, g'.bot.score, Option.map TurnRec.result g'.history[(0:ℕ)]?) =
      ((2:ℕ), (1:ℕ), some "Honest play (no call)") := by
    simp [hps, hbs, hrec]
  exact congrArg some htup

/-- C8: with a non-empty player hand, the card played is the minimum strength
when bluffing and the maximum when honest, and exactly one instance of that
value is removed from the hand (the hand shrinks by exactly one card, the
multiplicity of the played value drops by exactly one, all other
multiplicities are unchanged). -/
theorem player_turn_card_selection (g : GameState) (ai : BluffBotAI) (c : String)
    (b : Bool) (n : ℚ) (bo : BotOracle) (g' : GameState) (ai' : BluffBotAI) (v : ℕ)
    (hok : player_turn g ai c b n bo = .ok (g', ai'))
    (hv : (if b then pyMin g.player.hand else pyMax g.player.hand) = .ok v) :
    v ∈ g.player.hand ∧
    (b = true → ∀ y ∈ g.player.hand, v ≤ y) ∧
    (b = false → ∀ y ∈ g.player.hand, y ≤ v) ∧
    g'.player.hand = g.player.hand.erase v ∧
    g'.player.hand.length + 1 = g.player.hand.length ∧
    g'.player.hand.count v + 1 = g.player.hand.count v ∧
    (∀ y : ℕ, y ≠ v → g'.player.hand.count y = g.player.hand.count y) := by
  obtain ⟨v0, w, hv0, hw, hmemv, hmemw, _, _, hphand, _, _, _, _, _⟩ :=
    player_turn_ok hok
  have hvv : v0 = v := by
    rw [hv] at hv0
    exact ((Except.ok.injEq _ _).mp hv0).symm
  subst hvv
  refine ⟨hmemv, ?_, ?_, hphand, ?_, ?_, ?_⟩
  · intro hb
    rw [hb] at hv
    simp only [if_true] at hv
    exact (pyMin_ok hv).2
  · intro hb
    rw [hb] at hv
    simp only [Bool.false_eq_true, if_false] at hv
    exact (pyMax_ok hv).2
  · rw [hphand]
    exact List.length_erase_add_one hmemv
  · rw [hphand, List.count_erase_self]
    have := List.count_pos_iff.mpr hmemv
    omega
  · intro y hy
    rw [hphand, List.count_erase_of_ne hy]

/-- Witness for C8 on the hand [2, 2, 7] with a bluff: the played card is the
weakest (2), and only one of the two copies of 2 is removed. -/
theorem player_turn_card_selection_spot :
    (player_turn gDupEx ⟨[]⟩ "high" true 0 ⟨1, 0⟩).toOption.map
      (fun p => p.1.player.hand) = some [2, 7] := by
  obtain ⟨g', ai', h⟩ := player_turn_ne_nil gDupEx ⟨[]⟩ "high" true 0 ⟨1, 0⟩
    (by decide) (by decide)
  have ht := player_turn_card_selection gDupEx ⟨[]⟩ "high" true 0 ⟨1, 0⟩ g' ai' 2
    h (by rfl)
  have hh : g'.player.hand = [2, 7] := by
    rw [ht.2.2.2.1]; rfl
  rw [h]
  simp only [Except.toOption, Option.map_some]
  exact congrArg some hh

/-! ### Claims about the Opponent Turn Generator -/

/-- C9: the opponent bluffs exactly when its uniform draw falls below the
fixed 0.30, independently of the Belief Model (the `ai` argument is inert);
when bluffing it plays its weakest card and declares a claim from the
two-element menu {medium, high}, when honest its strongest card and a claim
from {low, medium, high} (each menu value reachable from some uniform index,
i.e. the draw is uniform over the menu); its score rises by exactly 1 iff it
bluffed; and it appends exactly one record, with `bot_called = false`. -/
theorem bot_act_policy (g : GameState) (ai ai2 : BluffBotAI) (o : BotOracle) :
    bot_act g ai o = bot_act g ai2 o ∧
    (g.bot.hand ≠ [] → ∃ g', bot_act g ai o = .ok g') ∧
    (∀ (g' : GameState) (w : ℕ), bot_act g ai o = .ok g' →
      (if decide (o.bluffDraw < 3/10) then pyMin g.bot.hand else pyMax g.bot.hand)
        = .ok w →
      w ∈ g.bot.hand ∧
      (o.bluffDraw < 3/10 → (∀ y ∈ g.bot.hand, w ≤ y) ∧
        bot_claim true o.claimIdx ∈ (["medium", "high"] : List String)) ∧
      (¬ o.bluffDraw < 3/10 → (∀ y ∈ g.bot.hand, y ≤ w) ∧
        bot_claim false o.claimIdx ∈ (["low", "medium", "high"] : List String)) ∧
      g'.bot.hand = g.bot.hand.erase w ∧
      g'.bot.score = g.bot.score + (if o.bluffDraw < 3/10 then 1 else 0) ∧
      g'.player = g.player ∧
      g'.history = g.history ++ [botRec g o w] ∧
      (botRec g o w).bot_called = false ∧
      (botRec g o w).actor = "bot" ∧
      (botRec g o w).did_bluff = decide (o.bluffDraw < 3/10)) ∧
    (∀ s ∈ (["medium", "high"] : List String), ∃ i : ℕ, bot_claim true i = s) ∧
    (∀ s ∈ (["low", "medium", "high"] : List String), ∃ i : ℕ, bot_claim false i = s) := by
  refine ⟨rfl, fun hb => bot_act_ne_nil g ai o hb, ?_, ?_, ?_⟩
  · intro g' w hok hw
    obtain ⟨w0, hw0, hmem0, _, hplayer, hbhand, hbscore, hhist, _, _⟩ := bot_act_ok hok
    have hww : w0 = w := by
      rw [hw] at hw0
      exact ((Except.ok.injEq _ _).mp hw0).symm
    subst hww
    refine ⟨hmem0, ?_, ?_, hbhand, ?_, hplayer, hhist, rfl, rfl, rfl⟩
    · intro hdraw
      constructor
      · have hd : decide (o.bluffDraw < 3/10) = true := by simpa using hdraw
        rw [hd] at hw
        simp only [if_true] at hw
        exact (pyMin_ok hw).2
      · have h2 : o.claimIdx % 2 = 0 ∨ o.claimIdx % 2 = 1 := by omega
        rcases h2 with h2 | h2 <;> simp [bot_claim, h2]
    · intro hdraw
      constructor
      · have hd : decide (o.bluffDraw < 3/10) = false := by simpa using hdraw
        rw [hd] at hw
        simp only [Bool.false_eq_true, if_false] at hw
        exact (pyMax_ok hw).2
      · have h3 : o.claimIdx % 3 = 0 ∨ o.claimIdx % 3 = 1 ∨ o.claimIdx % 3 = 2 := by
          omega
        rcases h3 with h3 | h3 | h3 <;> simp [bot_claim, h3]
    · rw [hbscore]
      simp
  · intro s hs
    rcases (by simpa using hs : s = "medium" ∨ s = "high") with rfl | rfl
    · exact ⟨0, by decide⟩
    · exact ⟨1, by decide⟩
  · intro s hs
    rcases (by simpa using hs : s = "low" ∨ s = "medium" ∨ s = "high") with rfl | rfl | rfl
    · exact ⟨0, by decide⟩
    · exact ⟨1, by decide⟩
    · exact ⟨2, by decide⟩

/-- Witness for C9: a bluffing opponent with hand [3, 8] and draws
(0.0, idx 1): plays 3, claims "high", gains a point, logs one uncalled
record. -/
theorem bot_act_policy_spot :
    (bot_act gBotEx ⟨[]⟩ ⟨0, 1⟩).toOption.map
      (fun g' => (g'.bot.hand, g'.bot.score,
        g'.history.map (fun r => (r.claim, r.bot_called, r.did_bluff)))) =
      some ([8], 2, [("high", false, true)]) := by
  have hpol := bot_act_policy gBotEx ⟨[]⟩ ⟨[]⟩ ⟨0, 1⟩
  obtain ⟨g', h⟩ := hpol.2.1 (by decide)
  have hw : (if decide ((⟨0, 1⟩ : BotOracle).bluffDraw < 3/10)
      then pyMin gBotEx.bot.hand else pyMax gBotEx.bot.hand) = .ok 3 := by
    with_unfolding_all rfl
  have hmain := hpol.2.2.1 g' 3 h hw
  have hdraw : ((⟨0, 1⟩ : BotOracle) : BotOracle).bluffDraw < 3/10 := by
    show (0:ℚ) < 3/10
    norm_num
  have hhand : g'.bot.hand = [8] := by rw [hmain.2.2.2.1]; rfl
  have hscore : g'.bot.score = 2 := by
    rw [hmain.2.2.2.2.1, if_pos hdraw]
    decide
  have hbl : decide (((⟨0, 1⟩ : BotOracle) : BotOracle).bluffDraw < (3:ℚ)/10) = true := by
    simpa using hdraw
  have hhist : g'.history.map (fun r => (r.claim, r.bot_called, r.did_bluff)) =
      [("high", false, true)] := by
    rw [hmain.2.2.2.2.2.2.1]
    simp [botRec, hbl, bot_claim, gBotEx]
  rw [h]
  have htup : (g'.bot.hand, g'.bot.score,
      g'.history.map (fun r => (r.claim, r.bot_called, r.did_bluff))) =
      (([8] : List ℕ), (2:ℕ), [(("high":String), false, true)]) := by
    rw [hhand, hscore, hhist]
  exact congrArg some htup

/-! ### Claims about the Game State Machine -/

/-- One successful turn never clears an already-set terminal flag. -/
lemma player_turn_absorbs {g : GameState} {ai : BluffBotAI} {c : String} {b : Bool}
    {n : ℚ} {bo : BotOracle} {g' : GameState} {ai' : BluffBotAI}
    (h : player_turn g ai c b n bo = .ok (g', ai')) (hg : g.game_over = true) :
    g'.game_over = true := by
  obtain ⟨v, w, _, _, _, _, _, _, _, _, _, _, _, hgo⟩ := player_turn_ok h
  rw [hgo, hg]
  split <;> rfl

/-- No sequence of successful turns ever clears the terminal flag. -/
lemma run_absorbs : ∀ (inputs : List TurnInput) (g : GameState) (ai : BluffBotAI)
    (g' : GameState) (ai' : BluffBotAI), g.game_over = true →
    run g ai inputs = .ok (g', ai') → g'.game_over = true := by
  intro inputs
  induction inputs with
  | nil =>
    intro g ai g' ai' hg h
    simp only [run, Except.ok.injEq, Prod.mk.injEq] at h
    obtain ⟨rfl, rfl⟩ := h
    exact hg
  | cons i is ih =>
    intro g ai g' ai' hg h
    simp only [run] at h
    split at h
    · simp at h
    · next g1 ai1 hpt => exact ih g1 ai1 g' ai' (player_turn_absorbs hpt hg) h

/-- C6: from a fresh game, after every successful sequence of turns the
terminal flag holds exactly when the round number exceeds 10 or both hands
are empty; and once set, no later turn ever clears it (terminal is
absorbing). -/
theorem game_over_exactly_and_absorbing :
    (∀ (h1 h2 : List ℕ) (ai0 : BluffBotAI) (inputs : List TurnInput)
        (g : GameState) (ai : BluffBotAI), h1 ≠ [] → h2 ≠ [] →
      run (init_game h1 h2) ai0 inputs = .ok (g, ai) →
      (g.game_over = true ↔
        (MAX_ROUNDS < g.round_num ∨ (g.player.hand = [] ∧ g.bot.hand = [])))) ∧
    (∀ (g : GameState) (ai : BluffBotAI) (inputs : List TurnInput)
        (g' : GameState) (ai' : BluffBotAI), g.game_over = true →
      run g ai inputs = .ok (g', ai') → g'.game_over = true) := by
  constructor
  · intro h1 h2 ai0 inputs g ai hne1 hne2 hrun
    refine run_game_over_inv inputs _ _ _ _ hrun ?_
    simp [init_game, MAX_ROUNDS, hne1]
  · intro g ai inputs g' ai' hg hrun
    exact run_absorbs inputs g ai g' ai' hg hrun

/-- Witness for C6: one turn from single-card hands terminates the game
(both hands empty); a turn played on an already-terminal state leaves the
flag set. -/
theorem game_over_exactly_and_absorbing_spot :
    (player_turn (init_game [5] [7]) ⟨[]⟩ "high" false 0 ⟨1, 0⟩).toOption.map
      (fun p => p.1.game_over) = some true ∧
    (player_turn gTerminalEx ⟨[]⟩ "low" false 0 ⟨1, 1⟩).toOption.map
      (fun p => p.1.game_over) = some true := by
  constructor
  · obtain ⟨g1, ai1, h⟩ := player_turn_ne_nil (init_game [5] [7]) ⟨[]⟩
      "high" false 0 ⟨1, 0⟩ (by decide) (by decide)
    have hrun : run (init_game [5] [7]) ⟨[]⟩ [⟨"high", false, 0, ⟨1, 0⟩⟩]
        = .ok (g1, ai1) := by
      simp [run, h]
    have hiff := game_over_exactly_and_absorbing.1 [5] [7] ⟨[]⟩
      [⟨"high", false, 0, ⟨1, 0⟩⟩] g1 ai1 (by decide) (by decide) hrun
    obtain ⟨hp, hb, hr⟩ := player_turn_hand_lengths h
    have hp1 : (init_game [5] [7]).player.hand.length = 1 := rfl
    have hb1 : (init_game [5] [7]).bot.hand.length = 1 := rfl
    have hpe : g1.player.hand = [] := List.length_eq_zero.mp (by omega)
    have hbe : g1.bot.hand = [] := List.length_eq_zero.mp (by omega)
    have hgo : g1.game_over = true := hiff.mpr (Or.inr ⟨hpe, hbe⟩)
    rw [h]
    simp only [Except.toOption, Option.map_some]
    exact congrArg some hgo
  · obtain ⟨g1, ai1, h⟩ := player_turn_ne_nil gTerminalEx ⟨[]⟩
      "low" false 0 ⟨1, 1⟩ (by decide) (by decide)
    have hrun : run gTerminalEx ⟨[]⟩ [⟨"low", false, 0, ⟨1, 1⟩⟩] = .ok (g1, ai1) := by
      simp [run, h]
    have hgo := game_over_exactly_and_absorbing.2 gTerminalEx ⟨[]⟩
      [⟨"low", false, 0, ⟨1, 1⟩⟩] g1 ai1 rfl hrun
    rw [h]
    simp only [Except.toOption, Option.map_some]
    exact congrArg some hgo

/-- C7: after N completed rounds from a fresh game, the history holds exactly
2N records — per round one player record then one opponent record — the round
column is [1,1,2,2,…,N,N] (non-decreasing, each record labelled with the round
in which its action occurred), and a turn only ever appends: the previous
history is a prefix of the new one. -/
theorem history_log_structure :
    (∀ (h1 h2 : List ℕ) (ai0 : BluffBotAI) (inputs : List TurnInput)
        (g : GameState) (ai : BluffBotAI),
      run (init_game h1 h2) ai0 inputs = .ok (g, ai) →
      g.history.length = 2 * inputs.length ∧
      g.round_num = inputs.length + 1 ∧
      g.history.map TurnRec.round = expectedRounds inputs.length ∧
      g.history.map TurnRec.actor =
        (List.replicate inputs.length (["player", "bot"] : List String)).flatten ∧
      (g.history.map TurnRec.round).Pairwise (· ≤ ·)) ∧
    (∀ (g0 : GameState) (ai0 : BluffBotAI) (c : String) (b : Bool) (n : ℚ)
        (bo : BotOracle) (g' : GameState) (ai' : BluffBotAI),
      player_turn g0 ai0 c b n bo = .ok (g', ai') →
      g'.history.take g0.history.length = g0.history) := by
  constructor
  · intro h1 h2 ai0 inputs g ai hrun
    have hinv := run_hist_inv inputs (init_game h1 h2) ai0 g ai 0 hrun rfl rfl rfl
    obtain ⟨hround, hcolr, hcola⟩ := hinv
    rw [Nat.zero_add] at hround hcolr hcola
    refine ⟨?_, hround, hcolr, hcola, ?_⟩
    · have hlen := congrArg List.length hcolr
      simpa [expectedRounds_length] using hlen
    · rw [hcolr]
      exact expectedRounds_pairwise _
  · intro g0 ai0 c b n bo g' ai' h
    exact (player_turn_hist_cols h).2.2.2

/-- Witness for C7 after one round of a fresh two-card game. -/
theorem history_log_structure_spot :
    (player_turn (init_game [5, 6] [7, 8]) ⟨[]⟩ "medium" false 0 ⟨1, 2⟩).toOption.map
      (fun p => (p.1.history.length, p.1.history.map TurnRec.round,
        p.1.history.map TurnRec.actor)) = some (2, [1, 1], ["player", "bot"]) := by
  obtain ⟨g1, ai1, h⟩ := player_turn_ne_nil (init_game [5, 6] [7, 8]) ⟨[]⟩
    "medium" false 0 ⟨1, 2⟩ (by decide) (by decide)
  have hrun : run (init_game [5, 6] [7, 8]) ⟨[]⟩ [⟨"medium", false, 0, ⟨1, 2⟩⟩]
      = .ok (g1, ai1) := by
    simp [run, h]
  have hs := history_log_structure.1 [5, 6] [7, 8] ⟨[]⟩
    [⟨"medium", false, 0, ⟨1, 2⟩⟩] g1 ai1 hrun
  have hlen : g1.history.length = 2 := by rw [hs.1]; rfl
  have hcr : g1.history.map TurnRec.round = [1, 1] := by rw [hs.2.2.1]; rfl
  have hca : g1.history.map TurnRec.actor = ["player", "bot"] := by
    rw [hs.2.2.2.1]; rfl
  rw [h]
  simp only [Except.toOption, Option.map_some]
  have htup : (g1.history.length, g1.history.map TurnRec.round,
      g1.history.map TurnRec.actor) = ((2:ℕ), ([1, 1] : List ℕ),
      (["player", "bot"] : List String)) := by
    rw [hlen, hcr, hca]
  exact congrArg some htup

/-- C10: from a fresh game (two hands of 5, round 1), every successful turn
removes one card from each hand and advances the round by one; a run of N
turns can only succeed for N ≤ 5, leaving hands of size 5−N and round N+1;
the terminal flag is set exactly at N = 5, at which point the round number
is 6 — so the 10-round limit is never the triggering condition. -/
theorem fresh_game_depletion :
    (∀ (h1 h2 : List ℕ) (ai0 : BluffBotAI) (inputs : List TurnInput)
        (g : GameState) (ai : BluffBotAI),
      h1.length = HAND_SIZE → h2.length = HAND_SIZE →
      run (init_game h1 h2) ai0 inputs = .ok (g, ai) →
      inputs.length ≤ 5 ∧
      g.player.hand.length = 5 - inputs.length ∧
      g.bot.hand.length = 5 - inputs.length ∧
      g.round_num = inputs.length + 1 ∧
      (g.game_over = true ↔ inputs.length = 5) ∧
      (g.game_over = true → g.round_num = 6 ∧ ¬ MAX_ROUNDS < g.round_num)) ∧
    (∀ (g0 : GameState) (ai0 : BluffBotAI) (c : String) (b : Bool) (n : ℚ)
        (bo : BotOracle) (g' : GameState) (ai' : BluffBotAI),
      player_turn g0 ai0 c b n bo = .ok (g', ai') →
      g'.player.hand.length + 1 = g0.player.hand.length ∧
      g'.bot.hand.length + 1 = g0.bot.hand.length ∧
      g'.round_num = g0.round_num + 1) := by
  constructor
  · intro h1 h2 ai0 inputs g ai hl1 hl2 hrun
    simp only [HAND_SIZE] at hl1 hl2
    have hlens := run_hand_lengths inputs (init_game h1 h2) ai0 g ai hrun
      (by simp [init_game, hl1, hl2])
    simp only [init_game] at hlens
    rw [hl1, hl2] at hlens
    obtain ⟨hle, hpl, hbl, hrn⟩ := hlens
    have hne1 : h1 ≠ [] := by intro hh; rw [hh] at hl1; simp at hl1
    have hne2 : h2 ≠ [] := by intro hh; rw [hh] at hl2; simp at hl2
    have hinv := run_game_over_inv inputs _ _ _ _ hrun
      (by simp [init_game, MAX_ROUNDS, hne1])
    have hiff : g.game_over = true ↔ inputs.length = 5 := by
      constructor
      · intro hset
        rcases hinv.mp hset with hlim | hempty
        · exfalso
          simp only [MAX_ROUNDS] at hlim
          omega
        · have h0 : g.player.hand.length = 0 := by rw [hempty.1]; rfl
          omega
      · intro hfive
        refine hinv.mpr (Or.inr ⟨?_, ?_⟩)
        · exact List.length_eq_zero.mp (by omega)
        · exact List.length_eq_zero.mp (by omega)
    refine ⟨hle, hpl, hbl, by omega, hiff, ?_⟩
    intro hset
    have h5 := hiff.mp hset
    refine ⟨by omega, ?_⟩
    simp only [MAX_ROUNDS]
    omega
  · intro g0 ai0 c b n bo g' ai' h
    exact player_turn_hand_lengths h

/-- Witness for C10 after one round of a fresh five-card game. -/
theorem fresh_game_depletion_spot :
    (player_turn (init_game [1, 2, 3, 4, 5] [5, 4, 3, 2, 1]) ⟨[]⟩ "low" true 0
      ⟨1, 0⟩).toOption.map
      (fun p => (p.1.player.hand.length, p.1.bot.hand.length, p.1.round_num,
        p.1.game_over)) = some (4, 4, 2, false) := by
  obtain ⟨g1, ai1, h⟩ := player_turn_ne_nil
    (init_game [1, 2, 3, 4, 5] [5, 4, 3, 2, 1]) ⟨[]⟩ "low" true 0 ⟨1, 0⟩
    (by decide) (by decide)
  have hrun : run (init_game [1, 2, 3, 4, 5] [5, 4, 3, 2, 1]) ⟨[]⟩
      [⟨"low", true, 0, ⟨1, 0⟩⟩] = .ok (g1, ai1) := by
    simp [run, h]
  have hd := fresh_game_depletion.1 [1, 2, 3, 4, 5] [5, 4, 3, 2, 1] ⟨[]⟩
    [⟨"low", true, 0, ⟨1, 0⟩⟩] g1 ai1 rfl rfl hrun
  have hgo : g1.game_over = false := by
    cases hg : g1.game_over
    · rfl
    · exact absurd (hd.2.2.2.2.1.mp hg) (by decide)
  rw [h]
  simp only [Except.toOption, Option.map_some]
  have htup : (g1.player.hand.length, g1.bot.hand.length, g1.round_num,
      g1.game_over) = ((4:ℕ), (4:ℕ), (2:ℕ), false) := by
    simp [hd.2.1, hd.2.2.1, hd.2.2.2.1, hgo]
  exact congrArg some htup

end BluffBot
